import Mathlib

/-!
Shallow embedding of the AlphaBot fee-collection program
(`src/solana-contract/src/lib.rs`) and proofs of the specification's
claims about it.

Modelling conventions:
- Machine integers (`u64`, `i64`) are `Nat` / `Int` with explicit `2^64`
  bounds where overflow matters; `checked_mul` / `checked_div` return
  `Option Nat` exactly as in the source.
- Accounts are records of (key, lamports, data, owner); host primitives
  (the system-program transfer and account creation, the rent oracle and
  the clock) are modelled as explicit state updates and parameters.
- Only the `EVENT:` log lines are tracked (the spec declares the other
  diagnostic lines non-contractual).
-/

namespace AlphaBot

/-- A Solana public key: 32 bytes.  Validity (length 32, bytes < 256) is a
separate predicate, as in the source it is enforced by the `[u8; 32]` type. -/
structure Pubkey where
  bytes : List Nat
deriving DecidableEq, Repr

def Pubkey.valid (p : Pubkey) : Prop :=
  p.bytes.length = 32 ∧ ∀ b ∈ p.bytes, b < 256

instance (p : Pubkey) : Decidable p.valid := by
  unfold Pubkey.valid; infer_instance

/-! ### Base58 (the encoding used by `Pubkey::from_str` / `Display`) -/

def BASE58_ALPHABET : List Char :=
  "123456789ABCDEFGHJKLMNPQRSTUVWXYZabcdefghijkmnopqrstuvwxyz".toList

def base58CharVal (c : Char) : Option Nat :=
  BASE58_ALPHABET.findIdx? (· == c)

/-- Value of a base58 digit string, most significant digit first. -/
def base58DecodeVal (cs : List Char) : Option Nat :=
  cs.foldl (fun acc c => acc.bind fun n => (base58CharVal c).map fun v => n * 58 + v)
    (some 0)

/-- Big-endian bytes of `n`, fixed width `k` (most significant first). -/
def natToBEBytesFixed : Nat → Nat → List Nat
  | 0, _ => []
  | k + 1, n => natToBEBytesFixed k (n / 256) ++ [n % 256]

/-- Parse a base58 string as a 32-byte public key, as `FEE_RECIPIENT.parse::<Pubkey>()`
does: decode the digits, restore one leading zero byte per leading '1', and
require exactly 32 bytes. -/
def parsePubkey (s : String) : Option Pubkey :=
  let cs := s.toList
  match base58DecodeVal cs with
  | none => none
  | some v =>
    let ones := (cs.takeWhile (· == '1')).length
    let body := (natToBEBytesFixed cs.length v).dropWhile (· == 0)
    let bytes := List.replicate ones 0 ++ body
    if bytes.length = 32 then some ⟨bytes⟩ else none

def natFromBEBytes (bs : List Nat) : Nat :=
  bs.foldl (fun acc b => acc * 256 + b) 0

/-- Base58 digits of `n`, fixed width `k` (most significant first). -/
def natToB58DigitsFixed : Nat → Nat → List Nat
  | 0, _ => []
  | k + 1, n => natToB58DigitsFixed k (n / 58) ++ [n % 58]

def b58Char (d : Nat) : Char := BASE58_ALPHABET.getD d '?'

/-- Base58 rendering of a public key (how `Display for Pubkey` prints it in
the `msg!` event lines): one '1' per leading zero byte, then the base58
digits of the value.  A 32-byte value needs at most 44 digits. -/
def pubkeyToBase58 (p : Pubkey) : String :=
  let zeros := (p.bytes.takeWhile (· == 0)).length
  let digits := (natToB58DigitsFixed 44 (natFromBEBytes p.bytes)).dropWhile (· == 0)
  String.mk (List.replicate zeros '1' ++ digits.map b58Char)

/-! ### Program constants (`lib.rs` lines 33–36) -/

def FEE_RECIPIENT : String := "9TkcJVpw9yYkNrTFdhBBq3iYa4r69osa5PfuAwzxS3ht"
def WITHDRAWAL_FEE_PERCENT : Nat := 5
def TRADING_FEE_PERCENT : Nat := 5
def FEE_PRECISION : Nat := 100

/-- The 32 bytes that `FEE_RECIPIENT` decodes to. -/
def feeRecipientKey : Pubkey :=
  ⟨[125, 183, 231, 167, 201, 169, 144, 46, 119, 5, 108, 4, 202, 33, 100, 56,
    12, 6, 210, 56, 246, 4, 1, 0, 44, 155, 26, 251, 96, 5, 24, 131]⟩

/-! ### Errors, accounts, results -/

/-- The `ProgramError` variants this program can produce.  `Custom` carries a
system-program error code surfaced through `invoke` (pass-through host
failures). -/
inductive ProgramError where
  | InvalidInstructionData
  | InvalidAccountData
  | ArithmeticOverflow
  | InsufficientFunds
  | NotEnoughAccountKeys
  | Custom (code : Nat)
deriving DecidableEq, Repr

/-- `ProgramResult = Result<(), ProgramError>`. -/
inductive ProgResult where
  | ok
  | err (e : ProgramError)
deriving DecidableEq, Repr

/-- The slice of an `AccountInfo` the program reads or writes: address,
lamport balance, data bytes and owning program.  Signer/writable flags are
host-enforced preconditions the program never inspects. -/
structure AccountMeta where
  key : Pubkey
  lamports : Nat
  data : List Nat
  owner : Pubkey
deriving DecidableEq, Repr

/-- Outcome of one handler invocation: the `ProgramResult`, the account list
after any lamport/data mutations (unchanged on every error path, as each
check precedes any state change), and the emitted `EVENT:` log lines. -/
structure HandlerResult where
  result : ProgResult
  accounts : List AccountMeta
  events : List String
deriving DecidableEq, Repr

/-! ### u64 checked arithmetic -/

def U64_LIMIT : Nat := 2 ^ 64

/-- `u64::checked_mul`. -/
def checked_mul (a b : Nat) : Option Nat :=
  if a * b < U64_LIMIT then some (a * b) else none

/-- `u64::checked_div`. -/
def checked_div (a b : Nat) : Option Nat :=
  if b = 0 then none else some (a / b)

/-- The fee computation of `process_withdrawal_fee` (lines 144–147):
`amount.checked_mul(WITHDRAWAL_FEE_PERCENT).and_then(|x| x.checked_div(FEE_PRECISION))`. -/
def withdrawal_fee_amount (amount : Nat) : Option Nat :=
  (checked_mul amount WITHDRAWAL_FEE_PERCENT).bind fun x => checked_div x FEE_PRECISION

/-- The fee computation of `process_trading_fee` (lines 204–207). -/
def trading_fee_amount (amount : Nat) : Option Nat :=
  (checked_mul amount TRADING_FEE_PERCENT).bind fun x => checked_div x FEE_PRECISION

/-! ### Event log lines -/

/-- The `EVENT:WITHDRAWAL_FEE|{user}|{fee}|{ts}` line of line 179. -/
def withdrawalFeeEvent (payer : Pubkey) (fee : Nat) (ts : Int) : String :=
  "EVENT:WITHDRAWAL_FEE" ++ "|" ++ pubkeyToBase58 payer ++ "|" ++ Nat.repr fee
    ++ "|" ++ Int.repr ts

/-- The `EVENT:TRADING_FEE|{user}|{fee}|{ts}` line of line 239. -/
def tradingFeeEvent (payer : Pubkey) (fee : Nat) (ts : Int) : String :=
  "EVENT:TRADING_FEE" ++ "|" ++ pubkeyToBase58 payer ++ "|" ++ Nat.repr fee
    ++ "|" ++ Int.repr ts

/-! ### Fee handlers (`process_withdrawal_fee`, `process_trading_fee`)

The host clock (`chrono::Utc::now().timestamp()`) is the explicit
parameter `ts`.  The system-program transfer performed through `invoke`
moves exactly `fee_amount` lamports from the first to the second account. -/

def process_withdrawal_fee (accounts : List AccountMeta) (amount : Nat) (ts : Int) :
    HandlerResult :=
  match accounts with
  | user_account :: fee_recipient_account :: system_program :: rest =>
    match parsePubkey FEE_RECIPIENT with
    | none => ⟨.err .InvalidAccountData, accounts, []⟩
    | some expected_recipient =>
      if fee_recipient_account.key ≠ expected_recipient then
        ⟨.err .InvalidAccountData, accounts, []⟩
      else
        match withdrawal_fee_amount amount with
        | none => ⟨.err .ArithmeticOverflow, accounts, []⟩
        | some fee_amount =>
          if fee_amount = 0 then ⟨.ok, accounts, []⟩
          else if user_account.lamports < fee_amount then
            ⟨.err .InsufficientFunds, accounts, []⟩
          else
            ⟨.ok,
             { user_account with lamports := user_account.lamports - fee_amount } ::
               { fee_recipient_account with
                  lamports := fee_recipient_account.lamports + fee_amount } ::
               system_program :: rest,
             [withdrawalFeeEvent user_account.key fee_amount ts]⟩
  | _ => ⟨.err .NotEnoughAccountKeys, accounts, []⟩

def process_trading_fee (accounts : List AccountMeta) (amount : Nat) (ts : Int) :
    HandlerResult :=
  match accounts with
  | user_account :: fee_recipient_account :: system_program :: rest =>
    match parsePubkey FEE_RECIPIENT with
    | none => ⟨.err .InvalidAccountData, accounts, []⟩
    | some expected_recipient =>
      if fee_recipient_account.key ≠ expected_recipient then
        ⟨.err .InvalidAccountData, accounts, []⟩
      else
        match trading_fee_amount amount with
        | none => ⟨.err .ArithmeticOverflow, accounts, []⟩
        | some fee_amount =>
          if fee_amount = 0 then ⟨.ok, accounts, []⟩
          else if user_account.lamports < fee_amount then
            ⟨.err .InsufficientFunds, accounts, []⟩
          else
            ⟨.ok,
             { user_account with lamports := user_account.lamports - fee_amount } ::
               { fee_recipient_account with
                  lamports := fee_recipient_account.lamports + fee_amount } ::
               system_program :: rest,
             [tradingFeeEvent user_account.key fee_amount ts]⟩
  | _ => ⟨.err .NotEnoughAccountKeys, accounts, []⟩

/-! ### Borsh primitives

Borsh writes integers little-endian and fixed-width, a `bool` as one byte
that must be 0 or 1, a `[u8; 32]` as its 32 raw bytes, and an enum as a
`u8` variant index followed by the variant's fields.  `try_from_slice`
fails unless the whole input is consumed. -/

/-- Little-endian bytes of `n`, fixed width `k` (least significant first). -/
def natToLEBytes : Nat → Nat → List Nat
  | 0, _ => []
  | k + 1, n => n % 256 :: natToLEBytes k (n / 256)

/-- Read a `k`-byte little-endian unsigned integer. -/
def readLENat : Nat → List Nat → Option (Nat × List Nat)
  | 0, bs => some (0, bs)
  | _ + 1, [] => none
  | k + 1, b :: bs => (readLENat k bs).map fun p => (b + 256 * p.1, p.2)

/-- Read a borsh `bool` (one byte; only 0 and 1 are accepted). -/
def readBool : List Nat → Option (Bool × List Nat)
  | [] => none
  | b :: bs => if b = 0 then some (false, bs) else if b = 1 then some (true, bs) else none

/-- Read `k` raw bytes. -/
def readBytes : Nat → List Nat → Option (List Nat × List Nat)
  | 0, bs => some ([], bs)
  | _ + 1, [] => none
  | k + 1, b :: bs => (readBytes k bs).map fun p => (b :: p.1, p.2)

/-- Two's-complement `u64` bit pattern of an `i64` value. -/
def i64ToNat (v : Int) : Nat := (v % (2 ^ 64 : Int)).toNat

/-- `i64` value of a `u64` bit pattern. -/
def natToI64 (n : Nat) : Int :=
  if n < 2 ^ 63 then (n : Int) else (n : Int) - 2 ^ 64

/-! ### `FeeStats` and its `Pack` implementation -/

/-- The persisted statistics record (`FeeStats`, lines 67–75).  The `u64`
counters are `Nat` (valid when `< 2^64`), the `i64` timestamp is `Int`
(valid in `[-2^63, 2^63)`). -/
structure FeeStats where
  is_initialized : Bool
  wallet_address : Pubkey
  total_withdrawal_fees : Nat
  total_trading_fees : Nat
  fee_count : Nat
  last_fee_timestamp : Int
deriving DecidableEq, Repr

/-- `FeeStats::LEN = 1 + 32 + 8 + 8 + 8 + 8`. -/
def FeeStats.LEN : Nat := 1 + 32 + 8 + 8 + 8 + 8

/-- The field values `#[derive(BorshSerialize)]` can actually produce. -/
def FeeStats.valid (fs : FeeStats) : Prop :=
  fs.wallet_address.valid ∧
    fs.total_withdrawal_fees < 2 ^ 64 ∧
    fs.total_trading_fees < 2 ^ 64 ∧
    fs.fee_count < 2 ^ 64 ∧
    -(2 ^ 63) ≤ fs.last_fee_timestamp ∧ fs.last_fee_timestamp < 2 ^ 63

instance (fs : FeeStats) : Decidable fs.valid := by
  unfold FeeStats.valid; infer_instance

/-- Borsh serialization of `FeeStats` (`pack_into_slice`): flag byte, 32-byte
wallet address, then the four 64-bit integers little-endian, in declaration
order. -/
def serializeFeeStats (fs : FeeStats) : List Nat :=
  (if fs.is_initialized then 1 else 0) :: fs.wallet_address.bytes
    ++ natToLEBytes 8 fs.total_withdrawal_fees
    ++ natToLEBytes 8 fs.total_trading_fees
    ++ natToLEBytes 8 fs.fee_count
    ++ natToLEBytes 8 (i64ToNat fs.last_fee_timestamp)

/-- Borsh deserialization of `FeeStats`, leaving unread input: flag byte,
32-byte wallet address, then the four 64-bit integers, in declaration
order. -/
def deserializeFeeStatsPartial (bs : List Nat) : Option (FeeStats × List Nat) :=
  (readBool bs).bind fun p1 =>
  (readBytes 32 p1.2).bind fun p2 =>
  (readLENat 8 p2.2).bind fun p3 =>
  (readLENat 8 p3.2).bind fun p4 =>
  (readLENat 8 p4.2).bind fun p5 =>
  (readLENat 8 p5.2).map fun p6 =>
  (⟨p1.1, ⟨p2.1⟩, p3.1, p4.1, p5.1, natToI64 p6.1⟩, p6.2)

/-- `FeeStats::unpack_from_slice` = `try_from_slice` (full consumption) with
failure mapped to `InvalidAccountData`; we keep the `Option`. -/
def unpack_from_slice (bs : List Nat) : Option FeeStats :=
  match deserializeFeeStatsPartial bs with
  | some (fs, []) => some fs
  | _ => none

/-! ### Instruction decoding (`AlphaBotInstruction`, `try_from_slice`) -/

inductive AlphaBotInstruction where
  | ProcessWithdrawalFee (amount : Nat)
  | ProcessTradingFee (amount : Nat)
  | InitializeFeeStats
deriving DecidableEq, Repr

/-- The `amount` fields are `u64`. -/
def AlphaBotInstruction.valid : AlphaBotInstruction → Prop
  | .ProcessWithdrawalFee amount => amount < 2 ^ 64
  | .ProcessTradingFee amount => amount < 2 ^ 64
  | .InitializeFeeStats => True

instance (i : AlphaBotInstruction) : Decidable i.valid := by
  cases i <;> unfold AlphaBotInstruction.valid <;> infer_instance

/-- Borsh deserialization of `AlphaBotInstruction`: a `u8` variant index
(0, 1 or 2 in declaration order), then the variant's fields. -/
def decodeInstructionPartial (bs : List Nat) :
    Option (AlphaBotInstruction × List Nat) :=
  match bs with
  | 0 :: bs => (readLENat 8 bs).map fun p => (.ProcessWithdrawalFee p.1, p.2)
  | 1 :: bs => (readLENat 8 bs).map fun p => (.ProcessTradingFee p.1, p.2)
  | 2 :: bs => some (.InitializeFeeStats, bs)
  | _ => none

/-- `AlphaBotInstruction::try_from_slice(instruction_data)`: decode and
require that every byte is consumed. -/
def instructionTryFromSlice (bs : List Nat) : Option AlphaBotInstruction :=
  match decodeInstructionPartial bs with
  | some (i, []) => some i
  | _ => none

/-- Borsh serialization of `AlphaBotInstruction` (what a client sends). -/
def encodeInstruction : AlphaBotInstruction → List Nat
  | .ProcessWithdrawalFee amount => 0 :: natToLEBytes 8 amount
  | .ProcessTradingFee amount => 1 :: natToLEBytes 8 amount
  | .InitializeFeeStats => [2]

/-! ### `initialize_fee_stats` -/

/-- Modelled host primitive: the system program's `create_account`, invoked
at lines 260–275.  It fails (`SystemError`, surfaced as a custom error code
through `invoke`) when the target account is already in use — nonzero
lamports, data or a non-default owner — or when the payer cannot fund it;
on success it debits the payer, credits the new account, zero-fills `space`
bytes of data and assigns the owner. -/
def createAccount (payer newAcc : AccountMeta) (lamports space : Nat)
    (ownerProg : Pubkey) : Except Nat (AccountMeta × AccountMeta) :=
  if newAcc.lamports ≠ 0 ∨ newAcc.data ≠ [] then
    .error 0
  else if payer.lamports < lamports then
    .error 1
  else
    .ok ({ payer with lamports := payer.lamports - lamports },
         { newAcc with
            lamports := lamports,
            data := List.replicate space 0,
            owner := ownerProg })

/-- `initialize_fee_stats` (lines 244–292).  The rent oracle
(`Rent::minimum_balance`) is the explicit parameter `minimum_balance`;
the host clock is `ts`.  After `create_account`, `FeeStats::pack` checks
the destination length against `FeeStats::LEN` and serializes the fresh
record into the account data. -/
def initialize_fee_stats (program_id : Pubkey) (accounts : List AccountMeta)
    (minimum_balance : Nat → Nat) (ts : Int) : HandlerResult :=
  match accounts with
  | user_account :: fee_stats_account :: _system_program :: _rent_sysvar :: rest =>
    let space := FeeStats.LEN
    let lamports := minimum_balance space
    match createAccount user_account fee_stats_account lamports space program_id with
    | .error code => ⟨.err (.Custom code), accounts, []⟩
    | .ok (user', stats') =>
      let fee_stats : FeeStats :=
        { is_initialized := true
          wallet_address := user_account.key
          total_withdrawal_fees := 0
          total_trading_fees := 0
          fee_count := 0
          last_fee_timestamp := ts }
      if stats'.data.length ≠ FeeStats.LEN then
        ⟨.err .InvalidAccountData,
         user' :: stats' :: _system_program :: _rent_sysvar :: rest, []⟩
      else
        ⟨.ok,
         user' :: { stats' with data := serializeFeeStats fee_stats } ::
           _system_program :: _rent_sysvar :: rest,
         []⟩
  | _ => ⟨.err .NotEnoughAccountKeys, accounts, []⟩

/-! ### The dispatcher (`process_instruction`, lines 98–122) -/

def process_instruction (program_id : Pubkey) (accounts : List AccountMeta)
    (instruction_data : List Nat) (minimum_balance : Nat → Nat) (ts : Int) :
    HandlerResult :=
  match instructionTryFromSlice instruction_data with
  | none => ⟨.err .InvalidInstructionData, accounts, []⟩
  | some (.ProcessWithdrawalFee amount) => process_withdrawal_fee accounts amount ts
  | some (.ProcessTradingFee amount) => process_trading_fee accounts amount ts
  | some .InitializeFeeStats => initialize_fee_stats program_id accounts minimum_balance ts

/-! ### Sample values for concrete instantiations -/

def zeroKey : Pubkey := ⟨List.replicate 32 0⟩

def otherKey : Pubkey := ⟨List.replicate 32 1⟩

def sampleUser : AccountMeta := ⟨zeroKey, 1000, [], zeroKey⟩

def sampleRecipient : AccountMeta := ⟨feeRecipientKey, 7, [], zeroKey⟩

def sampleBadRecipient : AccountMeta := ⟨otherKey, 7, [], zeroKey⟩

def sampleSystem : AccountMeta := ⟨zeroKey, 0, [], zeroKey⟩

def sampleFresh : AccountMeta := ⟨otherKey, 0, [], zeroKey⟩

/-! ### Helper lemmas -/

theorem parse_fee_recipient : parsePubkey FEE_RECIPIENT = some feeRecipientKey := by
  decide

theorem lenat_decomp (n m : Nat) :
    n % (256 * m) = n % 256 + 256 * (n / 256 % m) := by
  conv_lhs => rw [← Nat.div_add_mod (n % (256 * m)) 256]
  rw [Nat.mod_mul_right_div_self, Nat.mod_mod_of_dvd n ⟨m, rfl⟩]
  omega

theorem readLENat_append (k : Nat) (rest : List Nat) (n : Nat) :
    readLENat k (natToLEBytes k n ++ rest) = some (n % 256 ^ k, rest) := by
  induction k generalizing n with
  | zero => simp [readLENat, natToLEBytes, Nat.mod_one]
  | succ k ih =>
    show (readLENat k (natToLEBytes k (n / 256) ++ rest)).map
        (fun p => (n % 256 + 256 * p.1, p.2)) = _
    rw [ih]
    show some (n % 256 + 256 * (n / 256 % 256 ^ k), rest) = some (n % 256 ^ (k + 1), rest)
    rw [pow_succ', ← lenat_decomp]

theorem readLENat_exact (k n : Nat) :
    readLENat k (natToLEBytes k n) = some (n % 256 ^ k, []) := by
  have h := readLENat_append k [] n
  rwa [List.append_nil] at h

theorem readBytes_append (xs rest : List Nat) :
    readBytes xs.length (xs ++ rest) = some (xs, rest) := by
  induction xs with
  | nil => simp [readBytes]
  | cons b xs ih => simp [readBytes, ih]

theorem i64_roundtrip (v : Int) (h1 : -(2 ^ 63) ≤ v) (h2 : v < 2 ^ 63) :
    natToI64 (i64ToNat v) = v := by
  unfold natToI64 i64ToNat
  omega

theorem serializeFeeStats_length (fs : FeeStats) (h : fs.wallet_address.bytes.length = 32) :
    (serializeFeeStats fs).length = 65 := by
  have hl : ∀ k n, (natToLEBytes k n).length = k := by
    intro k
    induction k with
    | zero => intro n; rfl
    | succ k ih => intro n; simp [natToLEBytes, ih]
  simp [serializeFeeStats, h, hl]

theorem deserialize_serialize (fs : FeeStats) (h : fs.valid) :
    deserializeFeeStatsPartial (serializeFeeStats fs) = some (fs, []) := by
  obtain ⟨⟨hlen, -⟩, hw, ht, hc, hts1, hts2⟩ := h
  have h256 : (256 : Nat) ^ 8 = 2 ^ 64 := by norm_num
  have hflag : readBool (serializeFeeStats fs) =
      some (fs.is_initialized,
        fs.wallet_address.bytes ++ (natToLEBytes 8 fs.total_withdrawal_fees
          ++ (natToLEBytes 8 fs.total_trading_fees ++ (natToLEBytes 8 fs.fee_count
          ++ natToLEBytes 8 (i64ToNat fs.last_fee_timestamp))))) := by
    cases hinit : fs.is_initialized <;>
      simp [serializeFeeStats, readBool, hinit, List.append_assoc]
  unfold deserializeFeeStatsPartial
  rw [hflag, Option.some_bind']
  rw [← hlen, readBytes_append, Option.some_bind']
  rw [readLENat_append, h256, Nat.mod_eq_of_lt hw, Option.some_bind']
  rw [readLENat_append, h256, Nat.mod_eq_of_lt ht, Option.some_bind']
  rw [readLENat_append, h256, Nat.mod_eq_of_lt hc, Option.some_bind']
  rw [readLENat_exact, h256]
  have hbound : i64ToNat fs.last_fee_timestamp < 2 ^ 64 := by
    unfold i64ToNat; omega
  rw [Nat.mod_eq_of_lt hbound]
  show some (_, _) = _
  rw [i64_roundtrip fs.last_fee_timestamp hts1 hts2]

theorem unpack_serialize (fs : FeeStats) (h : fs.valid) :
    unpack_from_slice (serializeFeeStats fs) = some fs := by
  unfold unpack_from_slice
  rw [deserialize_serialize fs h]

theorem decode_cons_0 (bs : List Nat) :
    decodeInstructionPartial (0 :: bs) =
      (readLENat 8 bs).map fun p => (AlphaBotInstruction.ProcessWithdrawalFee p.1, p.2) := rfl

theorem decode_cons_1 (bs : List Nat) :
    decodeInstructionPartial (1 :: bs) =
      (readLENat 8 bs).map fun p => (AlphaBotInstruction.ProcessTradingFee p.1, p.2) := rfl

theorem decode_cons_2 (bs : List Nat) :
    decodeInstructionPartial (2 :: bs) = some (AlphaBotInstruction.InitializeFeeStats, bs) := rfl

theorem tryFromSlice_of_decode_nil (bs : List Nat) (i : AlphaBotInstruction)
    (h : decodeInstructionPartial bs = some (i, [])) :
    instructionTryFromSlice bs = some i := by
  unfold instructionTryFromSlice
  rw [h]

theorem tryFromSlice_of_decode_cons (bs : List Nat) (i : AlphaBotInstruction)
    (e : Nat) (extra : List Nat)
    (h : decodeInstructionPartial bs = some (i, e :: extra)) :
    instructionTryFromSlice bs = none := by
  unfold instructionTryFromSlice
  rw [h]

theorem fee_amounts_eq (amount : Nat) (h : amount * 5 < 2 ^ 64) :
    withdrawal_fee_amount amount = some (amount * 5 / 100) ∧
    trading_fee_amount amount = some (amount * 5 / 100) := by
  have h' : amount * 5 < 18446744073709551616 := by omega
  constructor <;>
    simp [withdrawal_fee_amount, trading_fee_amount, checked_mul, checked_div,
      WITHDRAWAL_FEE_PERCENT, TRADING_FEE_PERCENT, FEE_PRECISION, U64_LIMIT, h']

/-! ### The claims -/

/-- C1: whenever the supplied fee-recipient account's address differs from the
hardcoded fee-recipient identifier, both `process_withdrawal_fee` and
`process_trading_fee` fail with `InvalidAccountData` and no funds move:
every account, in particular the payer, keeps its balance. -/
theorem C1_recipient_mismatch (user recip sys : AccountMeta) (rest : List AccountMeta)
    (amount : Nat) (ts : Int) (h : recip.key ≠ feeRecipientKey) :
    process_withdrawal_fee (user :: recip :: sys :: rest) amount ts =
      ⟨.err .InvalidAccountData, user :: recip :: sys :: rest, []⟩ ∧
    process_trading_fee (user :: recip :: sys :: rest) amount ts =
      ⟨.err .InvalidAccountData, user :: recip :: sys :: rest, []⟩ := by
  unfold process_withdrawal_fee process_trading_fee
  rw [parse_fee_recipient]
  simp [h]

theorem C1_recipient_mismatch_witness :
    sampleBadRecipient.key ≠ feeRecipientKey ∧
    (process_withdrawal_fee (sampleUser :: sampleBadRecipient :: sampleSystem :: []) 1000 0 =
      ⟨.err .InvalidAccountData, sampleUser :: sampleBadRecipient :: sampleSystem :: [], []⟩ ∧
    process_trading_fee (sampleUser :: sampleBadRecipient :: sampleSystem :: []) 1000 0 =
      ⟨.err .InvalidAccountData, sampleUser :: sampleBadRecipient :: sampleSystem :: [], []⟩) :=
  ⟨by decide, C1_recipient_mismatch sampleUser sampleBadRecipient sampleSystem [] 1000 0 (by decide)⟩

/-- C2: for every `u64` amount whose product with 5 fits in 64 bits, the fee
expression of both handlers evaluates to `⌊amount * 5 / 100⌋`, which never
exceeds `amount`. -/
theorem C2_fee_formula (amount : Nat) (h : amount * 5 < 2 ^ 64) :
    withdrawal_fee_amount amount = some (amount * 5 / 100) ∧
    trading_fee_amount amount = some (amount * 5 / 100) ∧
    amount * 5 / 100 ≤ amount := by
  have hle : amount * 5 / 100 ≤ amount := by
    have h1 : amount * 5 / 100 ≤ amount * 5 / 5 :=
      Nat.div_le_div_left (by norm_num) (by norm_num)
    have h2 : amount * 5 / 5 = amount := by omega
    omega
  exact ⟨(fee_amounts_eq amount h).1, (fee_amounts_eq amount h).2, hle⟩

theorem C2_fee_formula_witness :
    1000 * 5 < 2 ^ 64 ∧
    (withdrawal_fee_amount 1000 = some (1000 * 5 / 100) ∧
     trading_fee_amount 1000 = some (1000 * 5 / 100) ∧
     1000 * 5 / 100 ≤ 1000) :=
  ⟨by decide, C2_fee_formula 1000 (by decide)⟩

/-- C3: when `amount * 5` overflows 64 bits and the recipient is the valid
hardcoded one, both fee handlers fail with `ArithmeticOverflow` and perform
no transfer — all accounts keep their balances. -/
theorem C3_overflow (user recip sys : AccountMeta) (rest : List AccountMeta)
    (amount : Nat) (ts : Int) (hkey : recip.key = feeRecipientKey)
    (hover : 2 ^ 64 ≤ amount * 5) :
    process_withdrawal_fee (user :: recip :: sys :: rest) amount ts =
      ⟨.err .ArithmeticOverflow, user :: recip :: sys :: rest, []⟩ ∧
    process_trading_fee (user :: recip :: sys :: rest) amount ts =
      ⟨.err .ArithmeticOverflow, user :: recip :: sys :: rest, []⟩ := by
  have hmul : checked_mul amount 5 = none := by
    unfold checked_mul U64_LIMIT
    rw [if_neg (by omega)]
  have hw : withdrawal_fee_amount amount = none := by
    unfold withdrawal_fee_amount WITHDRAWAL_FEE_PERCENT
    rw [hmul]; rfl
  have ht : trading_fee_amount amount = none := by
    unfold trading_fee_amount TRADING_FEE_PERCENT
    rw [hmul]; rfl
  unfold process_withdrawal_fee process_trading_fee
  rw [parse_fee_recipient]
  simp [hkey, hw, ht]

theorem C3_overflow_witness :
    (sampleRecipient.key = feeRecipientKey ∧ 2 ^ 64 ≤ (2 ^ 64 - 1) * 5) ∧
    (process_withdrawal_fee (sampleUser :: sampleRecipient :: sampleSystem :: []) (2 ^ 64 - 1) 0 =
      ⟨.err .ArithmeticOverflow, sampleUser :: sampleRecipient :: sampleSystem :: [], []⟩ ∧
    process_trading_fee (sampleUser :: sampleRecipient :: sampleSystem :: []) (2 ^ 64 - 1) 0 =
      ⟨.err .ArithmeticOverflow, sampleUser :: sampleRecipient :: sampleSystem :: [], []⟩) :=
  ⟨⟨by decide, by decide⟩,
   C3_overflow sampleUser sampleRecipient sampleSystem [] (2 ^ 64 - 1) 0 (by decide) (by decide)⟩

/-- C4: with a valid recipient, no overflow, and a payer balance strictly
below the computed (necessarily nonzero) fee, both fee handlers fail with
`InsufficientFunds` and every account keeps its balance. -/
theorem C4_insufficient_funds (user recip sys : AccountMeta) (rest : List AccountMeta)
    (amount : Nat) (ts : Int) (hkey : recip.key = feeRecipientKey)
    (hnof : amount * 5 < 2 ^ 64) (hbal : user.lamports < amount * 5 / 100) :
    process_withdrawal_fee (user :: recip :: sys :: rest) amount ts =
      ⟨.err .InsufficientFunds, user :: recip :: sys :: rest, []⟩ ∧
    process_trading_fee (user :: recip :: sys :: rest) amount ts =
      ⟨.err .InsufficientFunds, user :: recip :: sys :: rest, []⟩ := by
  obtain ⟨hw, ht⟩ := fee_amounts_eq amount hnof
  have hne : amount * 5 / 100 ≠ 0 := by omega
  unfold process_withdrawal_fee process_trading_fee
  rw [parse_fee_recipient]
  simp [hkey, hw, ht, hne, hbal]

theorem C4_insufficient_funds_witness :
    (sampleRecipient.key = feeRecipientKey ∧ 2000 * 5 < 2 ^ 64 ∧
      (⟨zeroKey, 40, [], zeroKey⟩ : AccountMeta).lamports < 2000 * 5 / 100) ∧
    (process_withdrawal_fee (⟨zeroKey, 40, [], zeroKey⟩ :: sampleRecipient :: sampleSystem :: []) 2000 0 =
      ⟨.err .InsufficientFunds, ⟨zeroKey, 40, [], zeroKey⟩ :: sampleRecipient :: sampleSystem :: [], []⟩ ∧
    process_trading_fee (⟨zeroKey, 40, [], zeroKey⟩ :: sampleRecipient :: sampleSystem :: []) 2000 0 =
      ⟨.err .InsufficientFunds, ⟨zeroKey, 40, [], zeroKey⟩ :: sampleRecipient :: sampleSystem :: [], []⟩) :=
  ⟨⟨by decide, by decide, by decide⟩,
   C4_insufficient_funds ⟨zeroKey, 40, [], zeroKey⟩ sampleRecipient sampleSystem [] 2000 0
     (by decide) (by decide) (by decide)⟩

/-- C5: for `amount < 20` with a valid recipient, the computed fee is 0 and
both fee handlers succeed without touching any balance and without emitting
an `EVENT:` log line. -/
theorem C5_small_amount (user recip sys : AccountMeta) (rest : List AccountMeta)
    (amount : Nat) (ts : Int) (hkey : recip.key = feeRecipientKey)
    (hamt : amount < 20) :
    withdrawal_fee_amount amount = some 0 ∧
    trading_fee_amount amount = some 0 ∧
    process_withdrawal_fee (user :: recip :: sys :: rest) amount ts =
      ⟨.ok, user :: recip :: sys :: rest, []⟩ ∧
    process_trading_fee (user :: recip :: sys :: rest) amount ts =
      ⟨.ok, user :: recip :: sys :: rest, []⟩ := by
  have hnof : amount * 5 < 2 ^ 64 := by omega
  have h0 : amount * 5 / 100 = 0 := by omega
  obtain ⟨hw, ht⟩ := fee_amounts_eq amount hnof
  rw [h0] at hw ht
  refine ⟨hw, ht, ?_, ?_⟩
  · unfold process_withdrawal_fee
    rw [parse_fee_recipient]
    simp [hkey, hw]
  · unfold process_trading_fee
    rw [parse_fee_recipient]
    simp [hkey, ht]

theorem C5_small_amount_witness :
    (sampleRecipient.key = feeRecipientKey ∧ 19 < 20) ∧
    (withdrawal_fee_amount 19 = some 0 ∧
     trading_fee_amount 19 = some 0 ∧
     process_withdrawal_fee (sampleUser :: sampleRecipient :: sampleSystem :: []) 19 0 =
       ⟨.ok, sampleUser :: sampleRecipient :: sampleSystem :: [], []⟩ ∧
     process_trading_fee (sampleUser :: sampleRecipient :: sampleSystem :: []) 19 0 =
       ⟨.ok, sampleUser :: sampleRecipient :: sampleSystem :: [], []⟩) :=
  ⟨⟨by decide, by decide⟩,
   C5_small_amount sampleUser sampleRecipient sampleSystem [] 19 0 (by decide) (by decide)⟩

/-- C6: dispatching `ProcessWithdrawalFee { amount := 1000 }` with the valid
recipient and a payer balance of at least 50 succeeds, moves exactly 50
lamports from the payer to the recipient, and emits exactly the one
pipe-delimited `EVENT:WITHDRAWAL_FEE|<payer>|50|<ts>` line. -/
theorem C6_withdrawal_1000 (program_id : Pubkey) (user recip sys : AccountMeta)
    (rest : List AccountMeta) (minimum_balance : Nat → Nat) (ts : Int)
    (hkey : recip.key = feeRecipientKey) (hbal : 50 ≤ user.lamports) :
    process_instruction program_id (user :: recip :: sys :: rest)
        (encodeInstruction (.ProcessWithdrawalFee 1000)) minimum_balance ts =
      ⟨.ok,
       { user with lamports := user.lamports - 50 } ::
         { recip with lamports := recip.lamports + 50 } :: sys :: rest,
       ["EVENT:WITHDRAWAL_FEE" ++ "|" ++ pubkeyToBase58 user.key ++ "|" ++ "50"
          ++ "|" ++ Int.repr ts]⟩ := by
  have hdec : instructionTryFromSlice (encodeInstruction (.ProcessWithdrawalFee 1000)) =
      some (.ProcessWithdrawalFee 1000) := by decide
  have hfee : withdrawal_fee_amount 1000 = some 50 := by decide
  have hnlt : ¬ user.lamports < 50 := by omega
  have h50 : Nat.repr 50 = "50" := rfl
  unfold process_instruction
  rw [hdec]
  unfold process_withdrawal_fee
  rw [parse_fee_recipient]
  simp [hkey, hfee, hnlt, withdrawalFeeEvent, h50]

theorem C6_withdrawal_1000_witness :
    (sampleRecipient.key = feeRecipientKey ∧ 50 ≤ sampleUser.lamports) ∧
    process_instruction zeroKey (sampleUser :: sampleRecipient :: sampleSystem :: [])
        (encodeInstruction (.ProcessWithdrawalFee 1000)) (fun _ => 0) 0 =
      ⟨.ok,
       { sampleUser with lamports := sampleUser.lamports - 50 } ::
         { sampleRecipient with lamports := sampleRecipient.lamports + 50 } ::
         sampleSystem :: [],
       ["EVENT:WITHDRAWAL_FEE" ++ "|" ++ pubkeyToBase58 sampleUser.key ++ "|" ++ "50"
          ++ "|" ++ Int.repr 0]⟩ :=
  ⟨⟨by decide, by decide⟩,
   C6_withdrawal_1000 zeroKey sampleUser sampleRecipient sampleSystem [] (fun _ => 0) 0
     (by decide) (by decide)⟩

/-- C7: serializing a `FeeStats` record under the fixed 65-byte layout
(1 flag byte, 32-byte owner identifier, four 64-bit little-endian integers
in order) and deserializing the result reproduces the identical record, for
arbitrary valid field values. -/
theorem C7_feeStats_roundtrip (fs : FeeStats) (h : fs.valid) :
    (serializeFeeStats fs).length = 65 ∧
    unpack_from_slice (serializeFeeStats fs) = some fs :=
  ⟨serializeFeeStats_length fs h.1.1, unpack_serialize fs h⟩

theorem C7_feeStats_roundtrip_witness :
    FeeStats.valid ⟨true, feeRecipientKey, 1, 2, 3, -5⟩ ∧
    ((serializeFeeStats ⟨true, feeRecipientKey, 1, 2, 3, -5⟩).length = 65 ∧
     unpack_from_slice (serializeFeeStats ⟨true, feeRecipientKey, 1, 2, 3, -5⟩) =
       some ⟨true, feeRecipientKey, 1, 2, 3, -5⟩) :=
  ⟨by decide, C7_feeStats_roundtrip ⟨true, feeRecipientKey, 1, 2, 3, -5⟩ (by decide)⟩

/-- C8: a successful `initialize_fee_stats` on a fresh account allocates
exactly 65 bytes funded at the rent oracle's minimum-exempt balance for that
size, owned by this program, and the stored bytes decode to a record with
`is_initialized = true`, the payer as owner and all three counters zero. -/
theorem C8_initialize (program_id : Pubkey) (user stats sys rent : AccountMeta)
    (rest : List AccountMeta) (minimum_balance : Nat → Nat) (ts : Int)
    (hlam : stats.lamports = 0) (hdata : stats.data = [])
    (hfunds : minimum_balance 65 ≤ user.lamports)
    (hkey : user.key.valid) (hts1 : -(2 ^ 63) ≤ ts) (hts2 : ts < 2 ^ 63) :
    initialize_fee_stats program_id (user :: stats :: sys :: rent :: rest)
        minimum_balance ts =
      ⟨.ok,
       { user with lamports := user.lamports - minimum_balance 65 } ::
         { stats with
             lamports := minimum_balance 65,
             data := serializeFeeStats ⟨true, user.key, 0, 0, 0, ts⟩,
             owner := program_id } :: sys :: rent :: rest,
       []⟩ ∧
    (serializeFeeStats (⟨true, user.key, 0, 0, 0, ts⟩ : FeeStats)).length = 65 ∧
    unpack_from_slice (serializeFeeStats ⟨true, user.key, 0, 0, 0, ts⟩) =
      some ⟨true, user.key, 0, 0, 0, ts⟩ := by
  have hvalid : FeeStats.valid ⟨true, user.key, 0, 0, 0, ts⟩ :=
    ⟨hkey, by norm_num, by norm_num, by norm_num, hts1, hts2⟩
  refine ⟨?_, serializeFeeStats_length _ hkey.1, unpack_serialize _ hvalid⟩
  have h1 : ¬(stats.lamports ≠ 0 ∨ stats.data ≠ []) := by simp [hlam, hdata]
  have h2 : ¬(user.lamports < minimum_balance 65) := by omega
  unfold initialize_fee_stats createAccount FeeStats.LEN
  simp [h1, h2]

theorem C8_initialize_witness :
    (sampleFresh.lamports = 0 ∧ sampleFresh.data = [] ∧
      (fun _ => 650) 65 ≤ sampleUser.lamports ∧ sampleUser.key.valid ∧
      -(2 ^ 63) ≤ (9 : Int) ∧ (9 : Int) < 2 ^ 63) ∧
    (initialize_fee_stats otherKey
        (sampleUser :: sampleFresh :: sampleSystem :: sampleSystem :: [])
        (fun _ => 650) 9 =
      ⟨.ok,
       { sampleUser with lamports := sampleUser.lamports - (fun _ => 650) 65 } ::
         { sampleFresh with
             lamports := (fun _ => 650) 65,
             data := serializeFeeStats ⟨true, sampleUser.key, 0, 0, 0, 9⟩,
             owner := otherKey } :: sampleSystem :: sampleSystem :: [],
       []⟩ ∧
    (serializeFeeStats (⟨true, sampleUser.key, 0, 0, 0, 9⟩ : FeeStats)).length = 65 ∧
    unpack_from_slice (serializeFeeStats ⟨true, sampleUser.key, 0, 0, 0, 9⟩) =
      some ⟨true, sampleUser.key, 0, 0, 0, 9⟩) :=
  ⟨⟨by decide, by decide, by decide, by decide, by decide, by decide⟩,
   C8_initialize otherKey sampleUser sampleFresh sampleSystem sampleSystem []
     (fun _ => 650) 9 (by decide) (by decide) (by decide) (by decide) (by decide) (by decide)⟩

/-- C9: the dispatcher decodes a payload into at most one of the three
instruction variants and routes to the matching handler; every payload that
decodes to no variant — unknown discriminant, missing or trailing bytes —
fails with `InvalidInstructionData` and invokes no handler, and every
well-formed encoding decodes back to its instruction while any trailing
garbage is rejected. -/
theorem C9_dispatch (program_id : Pubkey) (accounts : List AccountMeta)
    (data : List Nat) (minimum_balance : Nat → Nat) (ts : Int)
    (i : AlphaBotInstruction) (extra : List Nat) :
    (instructionTryFromSlice data = none →
      process_instruction program_id accounts data minimum_balance ts =
        ⟨.err .InvalidInstructionData, accounts, []⟩) ∧
    (∀ a, instructionTryFromSlice data = some (.ProcessWithdrawalFee a) →
      process_instruction program_id accounts data minimum_balance ts =
        process_withdrawal_fee accounts a ts) ∧
    (∀ a, instructionTryFromSlice data = some (.ProcessTradingFee a) →
      process_instruction program_id accounts data minimum_balance ts =
        process_trading_fee accounts a ts) ∧
    (instructionTryFromSlice data = some .InitializeFeeStats →
      process_instruction program_id accounts data minimum_balance ts =
        initialize_fee_stats program_id accounts minimum_balance ts) ∧
    (i.valid → instructionTryFromSlice (encodeInstruction i) = some i) ∧
    (extra ≠ [] → instructionTryFromSlice (encodeInstruction i ++ extra) = none) := by
  have h256 : (256 : Nat) ^ 8 = 2 ^ 64 := by norm_num
  refine ⟨?_, ?_, ?_, ?_, ?_, ?_⟩
  · intro h; unfold process_instruction; rw [h]
  · intro a h; unfold process_instruction; rw [h]
  · intro a h; unfold process_instruction; rw [h]
  · intro h; unfold process_instruction; rw [h]
  · intro hv
    cases i with
    | ProcessWithdrawalFee a =>
      refine tryFromSlice_of_decode_nil _ _ ?_
      rw [encodeInstruction, decode_cons_0, readLENat_exact, h256,
        Nat.mod_eq_of_lt hv]
      rfl
    | ProcessTradingFee a =>
      refine tryFromSlice_of_decode_nil _ _ ?_
      rw [encodeInstruction, decode_cons_1, readLENat_exact, h256,
        Nat.mod_eq_of_lt hv]
      rfl
    | InitializeFeeStats => rfl
  · intro hx
    match extra, hx with
    | e :: es, _ =>
      cases i with
      | ProcessWithdrawalFee a =>
        refine tryFromSlice_of_decode_cons _ (.ProcessWithdrawalFee (a % 2 ^ 64)) e es ?_
        rw [encodeInstruction, List.cons_append, decode_cons_0, readLENat_append, h256]
        rfl
      | ProcessTradingFee a =>
        refine tryFromSlice_of_decode_cons _ (.ProcessTradingFee (a % 2 ^ 64)) e es ?_
        rw [encodeInstruction, List.cons_append, decode_cons_1, readLENat_append, h256]
        rfl
      | InitializeFeeStats =>
        refine tryFromSlice_of_decode_cons _ .InitializeFeeStats e es ?_
        rw [encodeInstruction, List.cons_append, decode_cons_2, List.nil_append]

theorem C9_dispatch_witness :
    (instructionTryFromSlice [3, 0] = none ∧
      (AlphaBotInstruction.ProcessWithdrawalFee 7).valid ∧ ([9] : List Nat) ≠ []) ∧
    ((instructionTryFromSlice [3, 0] = none →
      process_instruction zeroKey (sampleUser :: []) [3, 0] (fun _ => 0) 0 =
        ⟨.err .InvalidInstructionData, sampleUser :: [], []⟩) ∧
    (∀ a, instructionTryFromSlice [3, 0] = some (.ProcessWithdrawalFee a) →
      process_instruction zeroKey (sampleUser :: []) [3, 0] (fun _ => 0) 0 =
        process_withdrawal_fee (sampleUser :: []) a 0) ∧
    (∀ a, instructionTryFromSlice [3, 0] = some (.ProcessTradingFee a) →
      process_instruction zeroKey (sampleUser :: []) [3, 0] (fun _ => 0) 0 =
        process_trading_fee (sampleUser :: []) a 0) ∧
    (instructionTryFromSlice [3, 0] = some .InitializeFeeStats →
      process_instruction zeroKey (sampleUser :: []) [3, 0] (fun _ => 0) 0 =
        initialize_fee_stats zeroKey (sampleUser :: []) (fun _ => 0) 0) ∧
    ((AlphaBotInstruction.ProcessWithdrawalFee 7).valid →
      instructionTryFromSlice (encodeInstruction (.ProcessWithdrawalFee 7)) =
        some (.ProcessWithdrawalFee 7)) ∧
    (([9] : List Nat) ≠ [] →
      instructionTryFromSlice (encodeInstruction (.ProcessWithdrawalFee 7) ++ [9]) = none)) :=
  ⟨⟨by decide, by decide, by decide⟩,
   C9_dispatch zeroKey (sampleUser :: []) [3, 0] (fun _ => 0) 0
     (.ProcessWithdrawalFee 7) [9]⟩

/-- C10: the recipient identity check precedes the fee computation — when
the recipient mismatches AND `amount * 5` would overflow 64 bits, both fee
handlers fail with `InvalidAccountData`, not `ArithmeticOverflow`. -/
theorem C10_check_order (user recip sys : AccountMeta) (rest : List AccountMeta)
    (amount : Nat) (ts : Int) (hkey : recip.key ≠ feeRecipientKey)
    (hover : 2 ^ 64 ≤ amount * 5) :
    process_withdrawal_fee (user :: recip :: sys :: rest) amount ts =
      ⟨.err .InvalidAccountData, user :: recip :: sys :: rest, []⟩ ∧
    process_trading_fee (user :: recip :: sys :: rest) amount ts =
      ⟨.err .InvalidAccountData, user :: recip :: sys :: rest, []⟩ := by
  unfold process_withdrawal_fee process_trading_fee
  rw [parse_fee_recipient]
  simp [hkey]

theorem C10_check_order_witness :
    (sampleBadRecipient.key ≠ feeRecipientKey ∧ 2 ^ 64 ≤ (2 ^ 64 - 1) * 5) ∧
    (process_withdrawal_fee (sampleUser :: sampleBadRecipient :: sampleSystem :: []) (2 ^ 64 - 1) 0 =
      ⟨.err .InvalidAccountData, sampleUser :: sampleBadRecipient :: sampleSystem :: [], []⟩ ∧
    process_trading_fee (sampleUser :: sampleBadRecipient :: sampleSystem :: []) (2 ^ 64 - 1) 0 =
      ⟨.err .InvalidAccountData, sampleUser :: sampleBadRecipient :: sampleSystem :: [], []⟩) :=
  ⟨⟨by decide, by decide⟩,
   C10_check_order sampleUser sampleBadRecipient sampleSystem [] (2 ^ 64 - 1) 0
     (by decide) (by decide)⟩

end AlphaBot
